import Mathlib

/-!
Verification development for the Ginseng transfer-orchestration and
progress-aggregation core.

The TypeScript event model (`src/types/progress.ts`) and the UI channel
handlers (`FileTransfer.tsx`) are embedded directly from the source.  The
Rust backend (ProgressTracker, RateLimiter, orchestrator in `src-tauri`)
is not part of the available sources; those components are modelled from
the specification, and every such definition is marked
`Modelled from the spec:` in its doc comment.
-/

set_option maxHeartbeats 1000000

/-! ## Definitions: the data model embedded from src/types/progress.ts
and FileTransfer.tsx, and the tracker / orchestrator / rate-limiter
components modelled from the spec. -/

/-- `TransferType` from progress.ts: `"upload" | "download"`. -/
inductive TransferType where
  | upload
  | download
deriving DecidableEq, Repr

/-- `TransferStage` from progress.ts (lines 6-13): the seven string
literals of the union type, including the reserved `"cancelled"`. -/
inductive TransferStage where
  | initializing
  | connecting
  | transferring
  | finalizing
  | completed
  | failed
  | cancelled
deriving DecidableEq, Repr

/-- `FileStatus` from progress.ts:
`"pending" | "transferring" | "completed" | "failed" | "skipped"`. -/
inductive FileStatus where
  | pending
  | transferring
  | completed
  | failed
  | skipped
deriving DecidableEq, Repr

/-- `FileProgress` from progress.ts (lines 17-26): exactly the fields
fileId, name, relativePath, totalBytes, transferredBytes, status,
transferRate?, error?. -/
structure FileProgress where
  fileId : String
  name : String
  relativePath : String
  totalBytes : Nat
  transferredBytes : Nat
  status : FileStatus
  transferRate : Option ℚ
  error : Option String
deriving DecidableEq, Repr

/-- `TransferProgress` from progress.ts (lines 28-42): the Session record,
with exactly the fields transferId, transferType, stage, totalFiles,
completedFiles, failedFiles, totalBytes, transferredBytes, transferRate?,
startTime, etaSeconds?, files, error?. -/
structure TransferProgress where
  transferId : String
  transferType : TransferType
  stage : TransferStage
  totalFiles : Nat
  completedFiles : Nat
  failedFiles : Nat
  totalBytes : Nat
  transferredBytes : Nat
  transferRate : Option ℚ
  startTime : Nat
  etaSeconds : Option ℚ
  files : List FileProgress
  error : Option String
deriving DecidableEq, Repr

/-- `ProgressEvent` from progress.ts (lines 44-59): the tagged union with
one constructor per event kind, payloads exactly as in the source. -/
inductive ProgressEvent where
  | transferStarted (transfer : TransferProgress)
  | transferProgress (transfer : TransferProgress)
  | fileProgress (transferId : String) (file : FileProgress)
  | stageChanged (transferId : String) (stage : TransferStage) (message : Option String)
  | transferCompleted (transfer : TransferProgress)
  | transferFailed (transfer : TransferProgress) (error : String)
deriving DecidableEq, Repr

/-- The discriminator string carried in the `event` field of each variant
of `ProgressEvent` (the tag of the tagged union in progress.ts). -/
def eventName : ProgressEvent → String
  | .transferStarted _ => "transferStarted"
  | .transferProgress _ => "transferProgress"
  | .fileProgress _ _ => "fileProgress"
  | .stageChanged _ _ _ => "stageChanged"
  | .transferCompleted _ => "transferCompleted"
  | .transferFailed _ _ => "transferFailed"

/-- `calculateProgress` from progress.ts (lines 86-89):
`if (total === 0) return 0; return Math.round((transferred / total) * 100)`.
JavaScript `Math.round x` is `⌊x + 1/2⌋`, which is Mathlib `round` on ℚ. -/
def calculateProgress (transferred total : ℚ) : ℤ :=
  if total = 0 then 0 else round (transferred / total * 100)

/-- Modelled from the spec: a file descriptor as enumerated by the
orchestrator before any worker starts (path/name plus byte size obtained
eagerly; a missing size makes initialization fail). -/
structure FileDescriptor where
  fileId : String
  name : String
  relativePath : String
  size : Option Nat
deriving DecidableEq, Repr

/-- Modelled from the spec: a per-file status is terminal
(`completed`/`failed`/`skipped`) and the entry is frozen once terminal. -/
def isTerminalStatus : FileStatus → Bool
  | .completed => true
  | .failed => true
  | .skipped => true
  | _ => false

/-- The FileEntry built by initialization: `pending` status, fixed
`totalBytes`, zero transferred bytes. -/
def initEntry (d : FileDescriptor) : FileProgress :=
  { fileId := d.fileId
    name := d.name
    relativePath := d.relativePath
    totalBytes := d.size.getD 0
    transferredBytes := 0
    status := .pending
    transferRate := none
    error := none }

/-- Modelled from the spec: `ProgressTracker.initialize(direction,
fileDescriptors)` builds the FileEntry list with `pending` status and
fixed `totalBytes`; it fails only if the descriptor list is empty or a
size is unavailable. -/
def initSession (ty : TransferType) (t0 : Nat) (tid : String)
    (ds : List FileDescriptor) : Except String TransferProgress :=
  if ds.isEmpty then .error "PathError: empty file list"
  else if ds.any (fun d => d.size.isNone) then .error "PathError: size unavailable"
  else .ok
    { transferId := tid
      transferType := ty
      stage := .initializing
      totalFiles := ds.length
      completedFiles := 0
      failedFiles := 0
      totalBytes := (ds.map (fun d => d.size.getD 0)).sum
      transferredBytes := 0
      transferRate := none
      startTime := t0
      etaSeconds := none
      files := ds.map initEntry
      error := none }

/-- Modelled from the spec: the session created directly in the `Failed`
stage by a pre-flight fault (bad path list, unparsable ticket), with no
FileEntry list. -/
def failedSession (ty : TransferType) (t0 : Nat) (tid : String)
    (err : String) : TransferProgress :=
  { transferId := tid
    transferType := ty
    stage := .failed
    totalFiles := 0
    completedFiles := 0
    failedFiles := 0
    totalBytes := 0
    transferredBytes := 0
    transferRate := none
    startTime := t0
    etaSeconds := none
    files := []
    error := some err }

/-- Apply an entry transformer to every entry whose id matches. -/
def applyToEntry (fid : String) (u : FileProgress → FileProgress)
    (l : List FileProgress) : List FileProgress :=
  l.map fun f => if f.fileId == fid then u f else f

/-- Modelled from the spec: the per-entry effect of `updateFile` — a
frozen (terminal) entry is left untouched; otherwise the transferred-byte
count is set monotonically (a lower value than previously recorded is
ignored) and the status is optionally set. -/
def uUpdate (bytes : Nat) (st : Option FileStatus) (f : FileProgress) : FileProgress :=
  if isTerminalStatus f.status then f
  else { f with
    transferredBytes := max f.transferredBytes bytes
    status := st.getD f.status }

/-- Modelled from the spec: the per-entry effect of `markTerminal` — a
frozen entry is left untouched; otherwise the entry transitions to the
given terminal status with the captured error, freezing its byte count. -/
def uTerminal (st : FileStatus) (err : Option String) (f : FileProgress) : FileProgress :=
  if isTerminalStatus f.status then f
  else { f with status := st, error := err }

/-- Modelled from the spec: session-level aggregates are recomputed (not
independently tracked) from the entries: `transferredBytes` is the sum
over entries, `completedFiles`/`failedFiles` count the entries in that
status. -/
def recompute (s : TransferProgress) : TransferProgress :=
  { s with
    transferredBytes := (s.files.map (fun f => f.transferredBytes)).sum
    completedFiles := s.files.countP (fun f => f.status == FileStatus.completed)
    failedFiles := s.files.countP (fun f => f.status == FileStatus.failed) }

/-- Modelled from the spec: `ProgressTracker.updateFile(fileId,
transferredBytes, status?)`. -/
def updateFile (s : TransferProgress) (fid : String) (bytes : Nat)
    (st : Option FileStatus) : TransferProgress :=
  recompute { s with files := applyToEntry fid (uUpdate bytes st) s.files }

/-- Modelled from the spec: `ProgressTracker.markTerminal(fileId, status,
error?)`. -/
def markTerminal (s : TransferProgress) (fid : String) (st : FileStatus)
    (err : Option String) : TransferProgress :=
  recompute { s with files := applyToEntry fid (uTerminal st err) s.files }

/-- All entries have reached a terminal per-file status. -/
def allTerminalB (l : List FileProgress) : Bool :=
  l.all fun f => isTerminalStatus f.status

/-- Modelled from the spec: a worker's terminal transition; once every
worker has reached a terminal per-file status the session reaches
`Completed` (even if some files failed). -/
def finishWorker (s : TransferProgress) (fid : String) (st : FileStatus)
    (err : Option String) : TransferProgress :=
  let m := markTerminal s fid st err
  if allTerminalB m.files then { m with stage := TransferStage.completed } else m

/-- Look up the FileEntry with the given id. -/
def findFile (s : TransferProgress) (fid : String) : Option FileProgress :=
  s.files.find? fun f => f.fileId == fid

/-- The recorded transferred-byte count of one file (0 if absent). -/
def transferredOf (s : TransferProgress) (fid : String) : Nat :=
  ((findFile s fid).map (fun f => f.transferredBytes)).getD 0

/-- Modelled from the spec: the tracker state held behind the
concurrency-safe boundary — the Session it owns exclusively plus the
session-scoped bookkeeping for rate computation and the rate limiter's
last emission time. -/
structure TrackerState where
  session : TransferProgress
  lastUpdateMillis : Nat
  lastEmitMillis : Nat
deriving DecidableEq, Repr

/-- Modelled from the spec: `snapshot() -> Session` hands out an
immutable copy of the Session and performs no mutation of the tracker
state. -/
def snapshot (st : TrackerState) : TransferProgress × TrackerState :=
  (st.session, st)

/-- Component state touched by the send tab's `channel.onmessage`
handler in FileTransfer.tsx: the `uploadProgress` and `ticket` React
state plus the toasts it fires. -/
structure SendViewState where
  uploadProgress : Option TransferProgress
  ticket : String
  toasts : List String
deriving DecidableEq, Repr

/-- Component state touched by the receive tab's `channel.onmessage`
handler in FileTransfer.tsx: the `downloadProgress` React state plus the
toasts it fires. -/
structure ReceiveViewState where
  downloadProgress : Option TransferProgress
  toasts : List String
deriving DecidableEq, Repr

/-- The send tab's `channel.onmessage` switch from FileTransfer.tsx:
`transferStarted`/`transferProgress` set `uploadProgress`;
`transferCompleted` sets it and, when the closure's `generatedTicket` is
non-empty, sets the ticket and fires a success toast; `transferFailed`
sets it and fires an error toast; `fileProgress` and `stageChanged` have
no case and fall through. -/
def sendOnMessage (generatedTicket : String) (e : ProgressEvent)
    (st : SendViewState) : SendViewState :=
  match e with
  | .transferStarted t => { st with uploadProgress := some t }
  | .transferProgress t => { st with uploadProgress := some t }
  | .transferCompleted t =>
      if generatedTicket ≠ "" then
        { st with
          uploadProgress := some t
          ticket := generatedTicket
          toasts := st.toasts ++ ["Share ticket generated!"] }
      else { st with uploadProgress := some t }
  | .transferFailed t err =>
      { st with
        uploadProgress := some t
        toasts := st.toasts ++ ["Failed: " ++ err] }
  | .fileProgress _ _ => st
  | .stageChanged _ _ _ => st

/-- The receive tab's `channel.onmessage` switch from FileTransfer.tsx:
`transferStarted`/`transferProgress` set `downloadProgress`;
`transferCompleted` sets it and fires a success toast; `transferFailed`
sets it and fires an error toast; `fileProgress` and `stageChanged` have
no case and fall through. -/
def receiveOnMessage (e : ProgressEvent) (st : ReceiveViewState) : ReceiveViewState :=
  match e with
  | .transferStarted t => { st with downloadProgress := some t }
  | .transferProgress t => { st with downloadProgress := some t }
  | .transferCompleted t =>
      { st with
        downloadProgress := some t
        toasts := st.toasts ++ ["Files downloaded successfully!"] }
  | .transferFailed t err =>
      { st with
        downloadProgress := some t
        toasts := st.toasts ++ ["Failed: " ++ err] }
  | .fileProgress _ _ => st
  | .stageChanged _ _ _ => st

/-- `FileInfo` from FileTransfer.tsx: name, relative_path, size. -/
structure FileInfo where
  name : String
  relative_path : String
  size : Nat
deriving DecidableEq, Repr

/-- The `share_type` union from FileTransfer.tsx:
`"SingleFile" | "MultipleFiles" | Directory-with-name`. -/
inductive ShareType where
  | SingleFile
  | MultipleFiles
  | Directory (name : String)
deriving DecidableEq, Repr

/-- `ShareMetadata` from FileTransfer.tsx: files, share_type, total_size. -/
structure ShareMetadata where
  files : List FileInfo
  share_type : ShareType
  total_size : Nat
deriving DecidableEq, Repr

/-- `DownloadResult` from FileTransfer.tsx (the record returned by the
download command): the share metadata and the local download path. -/
structure DownloadResult where
  metadata : ShareMetadata
  download_path : String
deriving DecidableEq, Repr

/-- Modelled from the spec: the share metadata assembled from the
resolved input paths (each path paired with its eagerly obtained size). -/
def metadataOfPaths (ps : List (String × Nat)) : ShareMetadata :=
  { files := ps.map fun p => { name := p.1, relative_path := p.1, size := p.2 }
    share_type := if ps.length == 1 then .SingleFile else .MultipleFiles
    total_size := (ps.map Prod.snd).sum }

/-- An opaque ticket string. -/
def mkTicket (n : Nat) : String := "blobqticket" ++ toString n

/-- Modelled from the spec: `shareFiles(paths) -> ticket` — the
`share_files_parallel` Tauri command (Rust source absent).  Given the
resolved paths it publishes the blobs (here: records the metadata under a
fresh ticket in the peer-visible store) and returns the opaque ticket
string; an empty path list is a pre-flight `PathError`. -/
def shareFiles (store : List (String × ShareMetadata))
    (ps : List (String × Nat)) :
    Except String (String × List (String × ShareMetadata)) :=
  if ps.isEmpty then .error "PathError: empty path list"
  else
    let t := mkTicket store.length
    .ok (t, (t, metadataOfPaths ps) :: store)

/-- Modelled from the spec: `downloadFiles(ticket) -> DownloadResult` —
the `download_files_parallel` Tauri command (Rust source absent).
Resolves the ticket against the peer-visible store and returns the share
metadata together with the local save location; an unresolvable ticket is
a `MetadataError`. -/
def downloadFiles (store : List (String × ShareMetadata))
    (downloadsDir : String) (ticket : String) : Except String DownloadResult :=
  match store.find? (fun p => p.1 == ticket) with
  | some p => .ok { metadata := p.2, download_path := downloadsDir }
  | none => .error "MetadataError: unresolvable ticket"

/-- The default rate-limiter interval (100 ms). -/
def defaultIntervalMs : Nat := 100

/-- Modelled from the spec: `shouldEmit(now, lastEmitTime, intervalMs)` —
a non-critical event may be emitted once the interval has elapsed since
the last emission. -/
def shouldEmit (now lastEmitTime intervalMs : Nat) : Bool :=
  lastEmitTime + intervalMs ≤ now

/-- Modelled from the spec: the events exempted from throttling — session
start, session terminal event, and every individual file's terminal
transition (completed/failed). -/
def isCritical : ProgressEvent → Bool
  | .transferStarted _ => true
  | .transferCompleted _ => true
  | .transferFailed _ _ => true
  | .fileProgress _ f =>
      f.status == FileStatus.completed || f.status == FileStatus.failed
  | _ => false

/-- Modelled from the spec: the emission loop — a timestamped event is
emitted when it is critical or the limiter allows it, and an emission
updates the last-emission time. -/
def processEvents (intervalMs : Nat) (lastEmit : Nat) :
    List (Nat × ProgressEvent) → List (Nat × ProgressEvent)
  | [] => []
  | (t, e) :: rest =>
      if isCritical e || shouldEmit t lastEmit intervalMs then
        (t, e) :: processEvents intervalMs t rest
      else
        processEvents intervalMs lastEmit rest

/-- Modelled from the spec: what one file's transport stream delivers to
its worker — a finite sequence of byte-progress primitives, then either
normal exhaustion (`outcome = none`) or a stream error with its message. -/
structure WorkerScript where
  updates : List Nat
  outcome : Option String
deriving DecidableEq, Repr

/-- Modelled from the spec: one worker drives exactly one file end to
end — marks its entry `transferring`, feeds each primitive's byte count
into `updateFile`, and on exhaustion (resp. error) marks the entry
`completed` (resp. `failed` with the captured error), after which the
session completes if every entry is terminal. -/
def runWorker (s : TransferProgress) (fid : String) (w : WorkerScript) :
    TransferProgress :=
  let s1 := updateFile s fid 0 (some FileStatus.transferring)
  let s2 := w.updates.foldl (fun acc b => updateFile acc fid b none) s1
  match w.outcome with
  | none => finishWorker s2 fid FileStatus.completed none
  | some err => finishWorker s2 fid FileStatus.failed (some err)

/-- Modelled from the spec: the orchestrator drains the whole work queue,
running one worker per file; no ordering guarantee is given between
files, and a failing worker never aborts its siblings. -/
def runAll (s : TransferProgress) (ws : List (String × WorkerScript)) :
    TransferProgress :=
  ws.foldl (fun acc pw => runWorker acc pw.1 pw.2) s

/-- The cumulative per-entry effect of one worker's script on its own
(non-frozen) entry. -/
def workerEntry (w : WorkerScript) (e : FileProgress) : FileProgress :=
  { e with
    transferredBytes := w.updates.foldl (fun a b => max a b) e.transferredBytes
    status := if w.outcome.isSome then FileStatus.failed else FileStatus.completed
    error := w.outcome }

/-- A concrete session used to witness the monotonicity claim: one file
mid-transfer with 5 of 10 bytes recorded. -/
def monoDemoSession : TransferProgress :=
  { transferId := "t"
    transferType := .upload
    stage := .transferring
    totalFiles := 1
    completedFiles := 0
    failedFiles := 0
    totalBytes := 10
    transferredBytes := 5
    transferRate := none
    startTime := 0
    etaSeconds := none
    files := [{ fileId := "f1", name := "a", relativePath := "a",
                totalBytes := 10, transferredBytes := 5,
                status := .transferring, transferRate := none, error := none }]
    error := none }

/-- Modelled from the spec: one observable step of the orchestrator — the
non-terminal stage progression `Initializing → Connecting → Transferring
→ Finalizing`, worker byte updates while workers are active, and a
worker's terminal transition (`completed` on stream exhaustion, `failed`
on stream error), after which the session reaches `Completed` once every
entry is terminal. -/
inductive OrchestratorStep : TransferProgress → TransferProgress → Prop where
  | toConnecting (s : TransferProgress) :
      s.stage = TransferStage.initializing →
      OrchestratorStep s { s with stage := TransferStage.connecting }
  | toTransferring (s : TransferProgress) :
      s.stage = TransferStage.connecting →
      OrchestratorStep s { s with stage := TransferStage.transferring }
  | toFinalizing (s : TransferProgress) :
      s.stage = TransferStage.transferring →
      OrchestratorStep s { s with stage := TransferStage.finalizing }
  | workerUpdate (s : TransferProgress) (fid : String) (bytes : Nat)
      (st : Option FileStatus) :
      (s.stage = TransferStage.transferring ∨ s.stage = TransferStage.finalizing) →
      (st = none ∨ st = some FileStatus.transferring) →
      OrchestratorStep s (updateFile s fid bytes st)
  | workerFinish (s : TransferProgress) (fid : String) (st : FileStatus)
      (err : Option String) :
      (s.stage = TransferStage.transferring ∨ s.stage = TransferStage.finalizing) →
      (st = FileStatus.completed ∨ st = FileStatus.failed) →
      OrchestratorStep s (finishWorker s fid st err)

/-- Modelled from the spec: the observable session states — a session is
created by `initSession` (or directly `Failed` by a pre-flight fault) and
then evolves by orchestrator steps. -/
inductive ReachableSession : TransferProgress → Prop where
  | created (ty : TransferType) (t0 : Nat) (tid : String)
      (ds : List FileDescriptor) (s : TransferProgress) :
      initSession ty t0 tid ds = Except.ok s → ReachableSession s
  | preflightFailed (ty : TransferType) (t0 : Nat) (tid : String) (err : String) :
      ReachableSession (failedSession ty t0 tid err)
  | step (s s' : TransferProgress) :
      ReachableSession s → OrchestratorStep s s' → ReachableSession s'

/-- The inductive invariant carried by every reachable session state. -/
structure SessionInv (s : TransferProgress) : Prop where
  total_eq : s.totalFiles = s.files.length
  completed_eq : s.completedFiles =
    s.files.countP (fun f => f.status == FileStatus.completed)
  failed_eq : s.failedFiles =
    s.files.countP (fun f => f.status == FileStatus.failed)
  not_cancelled : s.stage ≠ TransferStage.cancelled
  no_skipped : ∀ f ∈ s.files, f.status ≠ FileStatus.skipped
  active_open : (s.stage = TransferStage.initializing ∨
      s.stage = TransferStage.connecting ∨
      s.stage = TransferStage.transferring ∨
      s.stage = TransferStage.finalizing) →
      ∃ f ∈ s.files, f.status ≠ FileStatus.completed ∧ f.status ≠ FileStatus.failed
  completed_closed : s.stage = TransferStage.completed →
      ∀ f ∈ s.files, f.status = FileStatus.completed ∨ f.status = FileStatus.failed
  failed_pre : s.stage = TransferStage.failed → s.files = []

/-- The three files of the spec's scenarios: 10 MB, 20 MB and 5 MB. -/
def scenarioDescriptors : List FileDescriptor :=
  [ { fileId := "f1", name := "small.bin", relativePath := "small.bin",
      size := some 10485760 },
    { fileId := "f2", name := "large.bin", relativePath := "large.bin",
      size := some 20971520 },
    { fileId := "f3", name := "tiny.bin", relativePath := "tiny.bin",
      size := some 5242880 } ]

/-- The session built by initialization over the three scenario files. -/
def scenarioSession : TransferProgress :=
  { transferId := "tid"
    transferType := .upload
    stage := .initializing
    totalFiles := 3
    completedFiles := 0
    failedFiles := 0
    totalBytes := 36700160
    transferredBytes := 0
    transferRate := none
    startTime := 0
    etaSeconds := none
    files := scenarioDescriptors.map initEntry
    error := none }

/-- Scenario B worker scripts: the 20 MB file's stream raises a
TransportError mid-way, the other two streams finish normally. -/
def scenarioScripts : List (String × WorkerScript) :=
  [ ("f1", { updates := [1048576, 10485760], outcome := none }),
    ("f2", { updates := [1048576],
             outcome := some "TransportError: stream severed mid-transfer" }),
    ("f3", { updates := [5242880], outcome := none }) ]

/-! ## Theorems -/

/-- C5: every event delivered to the consumer has exactly one of the six
shapes transferStarted / transferProgress / fileProgress / stageChanged /
transferCompleted / transferFailed, with the payload of its constructor;
the Session and FileEntry payloads carry exactly the fields of
`TransferProgress` and `FileProgress` above, embedded from
progress.ts lines 17-59. -/
theorem progress_event_six_shapes (e : ProgressEvent) :
    eventName e ∈ ["transferStarted", "transferProgress", "fileProgress",
      "stageChanged", "transferCompleted", "transferFailed"] ∧
    ((∃ t, e = ProgressEvent.transferStarted t) ∨
     (∃ t, e = ProgressEvent.transferProgress t) ∨
     (∃ i f, e = ProgressEvent.fileProgress i f) ∨
     (∃ i st m, e = ProgressEvent.stageChanged i st m) ∨
     (∃ t, e = ProgressEvent.transferCompleted t) ∨
     (∃ t err, e = ProgressEvent.transferFailed t err)) := by
  cases e <;> simp [eventName]

/-- C10: `calculateProgress` is total and safe: it returns 0 whenever
`total = 0` (the division is guarded), and for `0 ≤ transferred ≤ total`
with `total > 0` it returns an integer between 0 and 100 inclusive. -/
theorem calculateProgress_total_safe :
    (∀ t : ℚ, calculateProgress t 0 = 0) ∧
    (∀ t total : ℚ, 0 ≤ t → t ≤ total → 0 < total →
      0 ≤ calculateProgress t total ∧ calculateProgress t total ≤ 100) := by
  constructor
  · intro t; simp [calculateProgress]
  · intro t total ht htt h0
    have hne : total ≠ 0 := ne_of_gt h0
    have hx0 : (0 : ℚ) ≤ t / total * 100 := by positivity
    have hx1 : t / total * 100 ≤ 100 := by
      have hdiv : t / total ≤ 1 := (div_le_one h0).mpr htt
      nlinarith
    simp only [calculateProgress, if_neg hne, round_eq]
    constructor
    · have : (0 : ℚ) ≤ t / total * 100 + 1 / 2 := by linarith
      exact Int.floor_nonneg.mpr this
    · have hle : t / total * 100 + 1 / 2 ≤ (100 : ℚ) + (1 : ℚ) / 2 := by linarith
      have h1 : ⌊t / total * 100 + 1 / 2⌋ ≤ ⌊(100 : ℚ) + (1 : ℚ) / 2⌋ :=
        Int.floor_le_floor hle
      have h2 : ⌊(100 : ℚ) + (1 : ℚ) / 2⌋ = 100 := by
        rw [show (100 : ℚ) + (1 : ℚ) / 2 = (1 : ℚ) / 2 + (100 : ℤ) by push_cast; ring,
          Int.floor_add_int]
        norm_num
      omega

/-- Witness for C10 at a concrete input. -/
theorem calculateProgress_total_safe_witness :
    0 ≤ calculateProgress 7 21 ∧ calculateProgress 7 21 ≤ 100 :=
  calculateProgress_total_safe.2 7 21 (by norm_num) (by norm_num) (by norm_num)

/-- C8: snapshot is idempotent — calling `snapshot()` twice with no
intervening `updateFile`/`markTerminal` yields identical output, and the
first call leaves the tracker state unchanged (so nothing can have
drifted in between). -/
theorem snapshot_idempotent (st : TrackerState) :
    (snapshot ((snapshot st).2)).1 = (snapshot st).1 ∧ (snapshot st).2 = st := by
  constructor <;> rfl

/-- C9: for every delivered event tagged `fileProgress` or `stageChanged`
both `channel.onmessage` handlers leave the component state unchanged,
while the four transfer-level tags do update the displayed transfer
state. -/
theorem onmessage_frame_fileProgress_stageChanged :
    (∀ gt st i f, sendOnMessage gt (ProgressEvent.fileProgress i f) st = st) ∧
    (∀ gt st i sg m, sendOnMessage gt (ProgressEvent.stageChanged i sg m) st = st) ∧
    (∀ st i f, receiveOnMessage (ProgressEvent.fileProgress i f) st = st) ∧
    (∀ st i sg m, receiveOnMessage (ProgressEvent.stageChanged i sg m) st = st) ∧
    (∀ gt st t, (sendOnMessage gt (ProgressEvent.transferStarted t) st).uploadProgress = some t) ∧
    (∀ gt st t, (sendOnMessage gt (ProgressEvent.transferProgress t) st).uploadProgress = some t) ∧
    (∀ gt st t, (sendOnMessage gt (ProgressEvent.transferCompleted t) st).uploadProgress = some t) ∧
    (∀ gt st t err, (sendOnMessage gt (ProgressEvent.transferFailed t err) st).uploadProgress = some t) ∧
    (∀ st t, (receiveOnMessage (ProgressEvent.transferStarted t) st).downloadProgress = some t) ∧
    (∀ st t, (receiveOnMessage (ProgressEvent.transferProgress t) st).downloadProgress = some t) ∧
    (∀ st t, (receiveOnMessage (ProgressEvent.transferCompleted t) st).downloadProgress = some t) ∧
    (∀ st t err, (receiveOnMessage (ProgressEvent.transferFailed t err) st).downloadProgress = some t) := by
  refine ⟨fun _ _ _ _ => rfl, fun _ _ _ _ _ => rfl, fun _ _ _ => rfl, fun _ _ _ _ => rfl,
    fun _ _ _ => rfl, fun _ _ _ => rfl, fun gt st t => ?_, fun _ _ _ _ => rfl,
    fun _ _ => rfl, fun _ _ => rfl, fun _ _ => rfl, fun _ _ _ => rfl⟩
  by_cases h : gt = "" <;> simp [sendOnMessage, h]

/-- C7: `shareFiles` turns a list of paths into an opaque ticket string,
and `downloadFiles` on that ticket returns exactly the record shape
`DownloadResult` (the share metadata plus the local download path). -/
theorem share_download_contract (store : List (String × ShareMetadata))
    (ps : List (String × Nat)) (dir t : String)
    (store' : List (String × ShareMetadata))
    (hps : ps ≠ [])
    (hok : shareFiles store ps = Except.ok (t, store')) :
    downloadFiles store' dir t =
      Except.ok { metadata := metadataOfPaths ps, download_path := dir } := by
  rw [shareFiles, if_neg (by simpa using hps)] at hok
  obtain ⟨ht, hstore⟩ : t = mkTicket store.length ∧
      store' = (mkTicket store.length, metadataOfPaths ps) :: store := by
    have := hok
    simp only [Except.ok.injEq, Prod.mk.injEq] at this
    exact ⟨this.1.symm, this.2.symm⟩
  subst ht hstore
  simp [downloadFiles]

/-- Witness for C7 at a concrete input. -/
theorem share_download_contract_witness :
    ([("a.txt", 3), ("b.txt", 4)] : List (String × Nat)) ≠ [] ∧
    shareFiles [] [("a.txt", 3), ("b.txt", 4)] =
      Except.ok ("blobqticket0",
        [("blobqticket0", metadataOfPaths [("a.txt", 3), ("b.txt", 4)])]) ∧
    downloadFiles [("blobqticket0", metadataOfPaths [("a.txt", 3), ("b.txt", 4)])]
        "Downloads" "blobqticket0" =
      Except.ok { metadata := metadataOfPaths [("a.txt", 3), ("b.txt", 4)]
                  download_path := "Downloads" } :=
  ⟨by decide, by rfl,
    share_download_contract [] [("a.txt", 3), ("b.txt", 4)] "Downloads"
      "blobqticket0" _ (by decide) (by rfl)⟩

/-- C3: with the default 100 ms interval, two non-critical snapshots
taken 10 ms apart yield at most one emitted event, while session start,
session terminal events and every file's terminal transition are critical
and are always emitted regardless of elapsed time. -/
theorem rate_limiter_throttle_and_critical :
    (∀ (t le : Nat) (e₁ e₂ : ProgressEvent),
      isCritical e₁ = false → isCritical e₂ = false →
      (processEvents defaultIntervalMs le [(t, e₁), (t + 10, e₂)]).length ≤ 1) ∧
    (∀ (interval le : Nat) (trace : List (Nat × ProgressEvent))
      (t : Nat) (e : ProgressEvent),
      (t, e) ∈ trace → isCritical e = true →
      (t, e) ∈ processEvents interval le trace) ∧
    (∀ s, isCritical (ProgressEvent.transferStarted s) = true) ∧
    (∀ s, isCritical (ProgressEvent.transferCompleted s) = true) ∧
    (∀ s err, isCritical (ProgressEvent.transferFailed s err) = true) ∧
    (∀ i f, (f.status = FileStatus.completed ∨ f.status = FileStatus.failed) →
      isCritical (ProgressEvent.fileProgress i f) = true) := by
  refine ⟨?throttle, ?critical, fun _ => rfl, fun _ => rfl, fun _ _ => rfl, ?fileTerm⟩
  case throttle =>
    intro t le e₁ e₂ h1 h2
    by_cases hs : shouldEmit t le defaultIntervalMs
    · have hs2 : shouldEmit (t + 10) t defaultIntervalMs = false := by
        simp only [shouldEmit, defaultIntervalMs, decide_eq_false_iff_not]
        omega
      simp [processEvents, h1, h2, hs, hs2]
    · have hs' : shouldEmit t le defaultIntervalMs = false := by
        simpa using hs
      by_cases h3 : shouldEmit (t + 10) le defaultIntervalMs <;>
        simp [processEvents, h1, hs', h2, h3]
  case critical =>
    intro interval le trace
    induction trace generalizing le with
    | nil => intro t e h _; simp at h
    | cons hd tl ih =>
      obtain ⟨t', e'⟩ := hd
      intro t e hmem hcrit
      rcases List.mem_cons.mp hmem with heq | htl
      · obtain ⟨rfl, rfl⟩ := Prod.mk.injEq .. ▸ heq
        simp [processEvents, hcrit]
      · simp only [processEvents]
        split
        · exact List.mem_cons_of_mem _ (ih t' t e htl hcrit)
        · exact ih le t e htl hcrit
  case fileTerm =>
    intro i f h
    rcases h with h | h <;> simp [isCritical, h]

/-- Witness for C3 at concrete inputs: two non-critical progress
snapshots at 1000 ms and 1010 ms produce at most one event, and a
critical terminal event in a trace is always emitted. -/
theorem rate_limiter_throttle_and_critical_witness :
    (isCritical (ProgressEvent.transferProgress (failedSession .upload 0 "t" "x")) = false ∧
      (processEvents defaultIntervalMs 0
        [(1000, ProgressEvent.transferProgress (failedSession .upload 0 "t" "x")),
         (1010, ProgressEvent.transferProgress (failedSession .upload 0 "t" "x"))]).length ≤ 1) ∧
    ((1005, ProgressEvent.transferCompleted (failedSession .upload 0 "t" "x")) ∈
      processEvents defaultIntervalMs 1000
        [(1005, ProgressEvent.transferCompleted (failedSession .upload 0 "t" "x"))]) :=
  ⟨⟨by rfl,
    rate_limiter_throttle_and_critical.1 1000 0
      (ProgressEvent.transferProgress (failedSession .upload 0 "t" "x"))
      (ProgressEvent.transferProgress (failedSession .upload 0 "t" "x"))
      (by rfl) (by rfl)⟩,
    rate_limiter_throttle_and_critical.2.1 defaultIntervalMs 1000
      [(1005, ProgressEvent.transferCompleted (failedSession .upload 0 "t" "x"))]
      1005 (ProgressEvent.transferCompleted (failedSession .upload 0 "t" "x"))
      (by simp) (by rfl)⟩

theorem countP_add_countP_le_length {α : Type} (l : List α) (p q : α → Bool)
    (h : ∀ x ∈ l, ¬(p x = true ∧ q x = true)) :
    l.countP p + l.countP q ≤ l.length := by
  induction l with
  | nil => simp
  | cons a l ih =>
    have ha := h a (List.mem_cons_self a l)
    have hl := ih fun x hx => h x (List.mem_cons_of_mem a hx)
    simp only [List.countP_cons, List.length_cons]
    by_cases hp : p a <;> by_cases hq : q a <;> simp [hp, hq] at ha ⊢ <;> omega

theorem countP_add_countP_eq_length_iff {α : Type} (l : List α) (p q : α → Bool)
    (h : ∀ x ∈ l, ¬(p x = true ∧ q x = true)) :
    l.countP p + l.countP q = l.length ↔ ∀ x ∈ l, p x = true ∨ q x = true := by
  induction l with
  | nil => simp
  | cons a l ih =>
    have ha := h a (List.mem_cons_self a l)
    have hl := fun x hx => h x (List.mem_cons_of_mem a hx)
    have hle := countP_add_countP_le_length l p q hl
    have hiff := ih hl
    simp only [List.countP_cons, List.length_cons, List.mem_cons]
    constructor
    · intro heq
      by_cases hp : p a <;> by_cases hq : q a <;> simp [hp, hq] at ha heq ⊢
      · exact fun x hx => (hiff.mp (by omega)) x hx
      · exact fun x hx => (hiff.mp (by omega)) x hx
      · omega
    · intro hall
      have hhead := hall a (Or.inl rfl)
      have htail : ∀ x ∈ l, p x = true ∨ q x = true := fun x hx => hall x (Or.inr hx)
      have := hiff.mpr htail
      by_cases hp : p a <;> by_cases hq : q a <;> simp [hp, hq] at ha hhead ⊢ <;> omega

theorem countP_congr_of_mem {α : Type} (l : List α) (p q : α → Bool)
    (h : ∀ x ∈ l, p x = q x) : l.countP p = l.countP q := by
  induction l with
  | nil => rfl
  | cons a l ih =>
    have ha := h a (List.mem_cons_self a l)
    have := ih fun x hx => h x (List.mem_cons_of_mem a hx)
    simp only [List.countP_cons, ha, this]

theorem find_eq_self_of_nodup_ids {α : Type} (key : α → String)
    (l : List α) (hnd : (l.map key).Nodup) (e : α) (he : e ∈ l) :
    l.find? (fun f => key f == key e) = some e := by
  induction l with
  | nil => simp at he
  | cons a l ih =>
    simp only [List.map_cons, List.nodup_cons] at hnd
    rcases List.mem_cons.mp he with rfl | hmem
    · simp
    · have hne : key a ≠ key e := fun hk => hnd.1 (hk ▸ List.mem_map_of_mem key hmem)
      rw [List.find?_cons_of_neg _ (by simpa using hne)]
      exact ih hnd.2 hmem

theorem uUpdate_fileId (b : Nat) (st : Option FileStatus) (f : FileProgress) :
    (uUpdate b st f).fileId = f.fileId := by
  unfold uUpdate; split <;> rfl

theorem uTerminal_fileId (st : FileStatus) (err : Option String) (f : FileProgress) :
    (uTerminal st err f).fileId = f.fileId := by
  unfold uTerminal; split <;> rfl

theorem applyToEntry_find_ne (l : List FileProgress) (fid g : String)
    (u : FileProgress → FileProgress) (hu : ∀ f, (u f).fileId = f.fileId)
    (hg : g ≠ fid) :
    (applyToEntry fid u l).find? (fun f => f.fileId == g) =
      l.find? (fun f => f.fileId == g) := by
  induction l with
  | nil => rfl
  | cons a l ih =>
    simp only [applyToEntry, List.map_cons]
    by_cases ha : a.fileId = fid
    · have h1 : ((u a).fileId == g) = false := by
        simp [hu a, ha, (by simpa using hg.symm : fid ≠ g)]
      have h2 : (a.fileId == g) = false := by
        simp [ha, (by simpa using hg.symm : fid ≠ g)]
      rw [if_pos (by simpa using ha), List.find?_cons_of_neg _ (by simp [h1]),
        List.find?_cons_of_neg _ (by simp [h2])]
      exact ih
    · rw [if_neg (by simpa using ha)]
      by_cases hag : a.fileId = g
      · rw [List.find?_cons_of_pos _ (by simpa using hag),
          List.find?_cons_of_pos _ (by simpa using hag)]
      · rw [List.find?_cons_of_neg _ (by simpa using hag),
          List.find?_cons_of_neg _ (by simpa using hag)]
        exact ih

theorem applyToEntry_find_self (l : List FileProgress) (fid : String)
    (u : FileProgress → FileProgress) (hu : ∀ f, (u f).fileId = f.fileId) :
    (applyToEntry fid u l).find? (fun f => f.fileId == fid) =
      (l.find? (fun f => f.fileId == fid)).map u := by
  induction l with
  | nil => rfl
  | cons a l ih =>
    simp only [applyToEntry, List.map_cons]
    by_cases ha : a.fileId = fid
    · rw [if_pos (by simpa using ha),
        List.find?_cons_of_pos _ (by simp [hu a, ha]),
        List.find?_cons_of_pos _ (by simpa using ha)]
      rfl
    · rw [if_neg (by simpa using ha),
        List.find?_cons_of_neg _ (by simpa using ha),
        List.find?_cons_of_neg _ (by simpa using ha)]
      exact ih

theorem applyToEntry_map_fileId (l : List FileProgress) (fid : String)
    (u : FileProgress → FileProgress) (hu : ∀ f, (u f).fileId = f.fileId) :
    (applyToEntry fid u l).map (fun f => f.fileId) = l.map (fun f => f.fileId) := by
  induction l with
  | nil => rfl
  | cons a l ih =>
    simp only [applyToEntry, List.map_cons] at ih ⊢
    rw [ih]
    by_cases ha : a.fileId = fid
    · rw [if_pos (by simpa using ha), hu a]
    · rw [if_neg (by simpa using ha)]

theorem findFile_updateFile_ne (s : TransferProgress) (fid g : String)
    (b : Nat) (st : Option FileStatus) (hg : g ≠ fid) :
    findFile (updateFile s fid b st) g = findFile s g := by
  simpa [findFile, updateFile, recompute] using
    applyToEntry_find_ne s.files fid g (uUpdate b st) (uUpdate_fileId b st) hg

theorem findFile_updateFile_self (s : TransferProgress) (fid : String)
    (b : Nat) (st : Option FileStatus) :
    findFile (updateFile s fid b st) fid = (findFile s fid).map (uUpdate b st) := by
  simpa [findFile, updateFile, recompute] using
    applyToEntry_find_self s.files fid (uUpdate b st) (uUpdate_fileId b st)

theorem findFile_markTerminal_ne (s : TransferProgress) (fid g : String)
    (st : FileStatus) (err : Option String) (hg : g ≠ fid) :
    findFile (markTerminal s fid st err) g = findFile s g := by
  simpa [findFile, markTerminal, recompute] using
    applyToEntry_find_ne s.files fid g (uTerminal st err) (uTerminal_fileId st err) hg

theorem findFile_markTerminal_self (s : TransferProgress) (fid : String)
    (st : FileStatus) (err : Option String) :
    findFile (markTerminal s fid st err) fid =
      (findFile s fid).map (uTerminal st err) := by
  simpa [findFile, markTerminal, recompute] using
    applyToEntry_find_self s.files fid (uTerminal st err) (uTerminal_fileId st err)

theorem finishWorker_files (s : TransferProgress) (fid : String)
    (st : FileStatus) (err : Option String) :
    (finishWorker s fid st err).files = (markTerminal s fid st err).files := by
  by_cases h : allTerminalB (markTerminal s fid st err).files <;>
    simp [finishWorker, h]

theorem findFile_finishWorker_ne (s : TransferProgress) (fid g : String)
    (st : FileStatus) (err : Option String) (hg : g ≠ fid) :
    findFile (finishWorker s fid st err) g = findFile s g := by
  rw [findFile, finishWorker_files, ← findFile]
  exact findFile_markTerminal_ne s fid g st err hg

theorem findFile_finishWorker_self (s : TransferProgress) (fid : String)
    (st : FileStatus) (err : Option String) :
    findFile (finishWorker s fid st err) fid =
      (findFile s fid).map (uTerminal st err) := by
  rw [findFile, finishWorker_files, ← findFile]
  exact findFile_markTerminal_self s fid st err

theorem findFile_foldUpdates_ne (bs : List Nat) (s : TransferProgress)
    (fid g : String) (hg : g ≠ fid) :
    findFile (bs.foldl (fun acc b => updateFile acc fid b none) s) g =
      findFile s g := by
  induction bs generalizing s with
  | nil => rfl
  | cons b bs ih =>
    rw [List.foldl_cons, ih, findFile_updateFile_ne s fid g b none hg]

theorem findFile_runWorker_ne (s : TransferProgress) (fid g : String)
    (w : WorkerScript) (hg : g ≠ fid) :
    findFile (runWorker s fid w) g = findFile s g := by
  unfold runWorker
  cases w.outcome <;>
    simp only [findFile_finishWorker_ne _ _ _ _ _ hg,
      findFile_foldUpdates_ne _ _ _ _ hg, findFile_updateFile_ne _ _ _ _ _ hg]

theorem findFile_runAll_ne (s : TransferProgress)
    (ws : List (String × WorkerScript)) (g : String)
    (hg : g ∉ ws.map Prod.fst) :
    findFile (runAll s ws) g = findFile s g := by
  induction ws generalizing s with
  | nil => rfl
  | cons p ws ih =>
    simp only [List.map_cons, List.mem_cons] at hg
    push_neg at hg
    show findFile (runAll (runWorker s p.1 p.2) ws) g = findFile s g
    rw [ih _ hg.2, findFile_runWorker_ne s p.1 g p.2 hg.1]

theorem findFile_foldUpdates_self (bs : List Nat) (s : TransferProgress)
    (fid : String) (e : FileProgress) (he : findFile s fid = some e)
    (hnt : isTerminalStatus e.status = false) :
    findFile (bs.foldl (fun acc b => updateFile acc fid b none) s) fid =
      some { e with
        transferredBytes := bs.foldl (fun a b => max a b) e.transferredBytes } := by
  induction bs generalizing s e with
  | nil =>
    rw [List.foldl_nil, he]
    rfl
  | cons b bs ih =>
    rw [List.foldl_cons]
    have h1 : findFile (updateFile s fid b none) fid =
        some (uUpdate b none e) := by
      rw [findFile_updateFile_self, he]
      rfl
    have h2 : uUpdate b none e =
        { e with transferredBytes := max e.transferredBytes b } := by
      unfold uUpdate
      rw [if_neg (by simp [hnt])]
      rfl
    rw [h2] at h1
    have := ih (updateFile s fid b none)
      { e with transferredBytes := max e.transferredBytes b } h1 (by simpa using hnt)
    simpa using this

theorem findFile_runWorker_self (s : TransferProgress) (fid : String)
    (w : WorkerScript) (e : FileProgress) (he : findFile s fid = some e)
    (hnt : isTerminalStatus e.status = false) :
    findFile (runWorker s fid w) fid = some (workerEntry w e) := by
  have h1 : findFile (updateFile s fid 0 (some FileStatus.transferring)) fid =
      some { e with status := FileStatus.transferring } := by
    rw [findFile_updateFile_self, he]
    show some (uUpdate 0 (some FileStatus.transferring) e) = _
    congr 1
    unfold uUpdate
    rw [if_neg (by simp [hnt])]
    simp [Nat.max_zero]
  have h2 : findFile
      (w.updates.foldl (fun acc b => updateFile acc fid b none)
        (updateFile s fid 0 (some FileStatus.transferring))) fid =
      some { e with
        status := FileStatus.transferring
        transferredBytes :=
          w.updates.foldl (fun a b => max a b) e.transferredBytes } := by
    have := findFile_foldUpdates_self w.updates _ fid _ h1 (by rfl)
    simpa using this
  unfold runWorker
  cases houtcome : w.outcome with
  | none =>
    rw [findFile_finishWorker_self, h2]
    show some (uTerminal FileStatus.completed none _) = _
    congr 1
    unfold uTerminal workerEntry
    rw [if_neg (by simp [isTerminalStatus])]
    simp [houtcome]
  | some err =>
    rw [findFile_finishWorker_self, h2]
    show some (uTerminal FileStatus.failed (some err) _) = _
    congr 1
    unfold uTerminal workerEntry
    rw [if_neg (by simp [isTerminalStatus])]
    simp [houtcome]

/-- C4: within one file the recorded `transferredBytes` is monotonically
non-decreasing — `updateFile` never lowers any entry's recorded count, a
call with a lower value than previously recorded is ignored, a frozen
(terminal) entry is left completely unchanged, and `markTerminal` freezes
the byte count. -/
theorem updateFile_monotonic :
    (∀ (s : TransferProgress) (fid : String) (b : Nat) (st : Option FileStatus)
      (g : String), transferredOf s g ≤ transferredOf (updateFile s fid b st) g) ∧
    (∀ (s : TransferProgress) (fid : String) (st : FileStatus)
      (err : Option String) (g : String),
      transferredOf (markTerminal s fid st err) g = transferredOf s g) ∧
    (∀ (s : TransferProgress) (fid : String) (b : Nat) (st : Option FileStatus)
      (e : FileProgress), findFile s fid = some e →
      isTerminalStatus e.status = true →
      findFile (updateFile s fid b st) fid = some e) ∧
    (∀ (s : TransferProgress) (fid : String) (b : Nat) (st : Option FileStatus),
      b ≤ transferredOf s fid →
      transferredOf (updateFile s fid b st) fid = transferredOf s fid) := by
  refine ⟨?mono, ?freezeBytes, ?frozen, ?reject⟩
  case mono =>
    intro s fid b st g
    by_cases hg : g = fid
    · subst hg
      simp only [transferredOf, findFile_updateFile_self]
      cases he : findFile s g with
      | none => simp
      | some e =>
        simp only [Option.map_some', Option.getD_some]
        unfold uUpdate
        split
        · exact le_refl _
        · exact Nat.le_max_left _ _
    · simp only [transferredOf, findFile_updateFile_ne s fid g b st hg]
      exact le_refl _
  case freezeBytes =>
    intro s fid st err g
    by_cases hg : g = fid
    · subst hg
      simp only [transferredOf, findFile_markTerminal_self]
      cases he : findFile s g with
      | none => simp
      | some e =>
        simp only [Option.map_some', Option.getD_some]
        unfold uTerminal
        split <;> rfl
    · simp only [transferredOf, findFile_markTerminal_ne s fid g st err hg]
  case frozen =>
    intro s fid b st e he hterm
    rw [findFile_updateFile_self, he]
    show some (uUpdate b st e) = some e
    unfold uUpdate
    rw [if_pos hterm]
  case reject =>
    intro s fid b st hb
    rw [transferredOf, findFile_updateFile_self]
    cases he : findFile s fid with
    | none => simp [transferredOf, he]
    | some e =>
      simp only [transferredOf, he, Option.map_some', Option.getD_some] at hb ⊢
      unfold uUpdate
      split
      · rfl
      · simp [Nat.max_eq_left hb]

/-- Witness for C4 at a concrete input: an update carrying 3 bytes for an
entry that already recorded 5 is ignored. -/
theorem updateFile_monotonic_witness :
    (3 ≤ transferredOf monoDemoSession "f1") ∧
    transferredOf (updateFile monoDemoSession "f1" 3 none) "f1" =
      transferredOf monoDemoSession "f1" :=
  ⟨by decide, updateFile_monotonic.2.2.2 monoDemoSession "f1" 3 none (by decide)⟩

theorem updateFile_stage (s : TransferProgress) (fid : String) (b : Nat)
    (st : Option FileStatus) : (updateFile s fid b st).stage = s.stage := rfl

theorem updateFile_totalFiles (s : TransferProgress) (fid : String) (b : Nat)
    (st : Option FileStatus) : (updateFile s fid b st).totalFiles = s.totalFiles := rfl

theorem updateFile_files (s : TransferProgress) (fid : String) (b : Nat)
    (st : Option FileStatus) :
    (updateFile s fid b st).files = applyToEntry fid (uUpdate b st) s.files := rfl

theorem updateFile_counts (s : TransferProgress) (fid : String) (b : Nat)
    (st : Option FileStatus) :
    (updateFile s fid b st).completedFiles =
      (updateFile s fid b st).files.countP (fun f => f.status == FileStatus.completed) ∧
    (updateFile s fid b st).failedFiles =
      (updateFile s fid b st).files.countP (fun f => f.status == FileStatus.failed) :=
  ⟨rfl, rfl⟩

theorem markTerminal_stage (s : TransferProgress) (fid : String) (st : FileStatus)
    (err : Option String) : (markTerminal s fid st err).stage = s.stage := rfl

theorem markTerminal_totalFiles (s : TransferProgress) (fid : String)
    (st : FileStatus) (err : Option String) :
    (markTerminal s fid st err).totalFiles = s.totalFiles := rfl

theorem markTerminal_files (s : TransferProgress) (fid : String) (st : FileStatus)
    (err : Option String) :
    (markTerminal s fid st err).files = applyToEntry fid (uTerminal st err) s.files := rfl

theorem markTerminal_counts (s : TransferProgress) (fid : String) (st : FileStatus)
    (err : Option String) :
    (markTerminal s fid st err).completedFiles =
      (markTerminal s fid st err).files.countP (fun f => f.status == FileStatus.completed) ∧
    (markTerminal s fid st err).failedFiles =
      (markTerminal s fid st err).files.countP (fun f => f.status == FileStatus.failed) :=
  ⟨rfl, rfl⟩

theorem applyToEntry_length (fid : String) (u : FileProgress → FileProgress)
    (l : List FileProgress) : (applyToEntry fid u l).length = l.length := by
  simp [applyToEntry]

theorem finishWorker_eq_pos (s : TransferProgress) (fid : String) (st : FileStatus)
    (err : Option String)
    (hall : allTerminalB (markTerminal s fid st err).files = true) :
    finishWorker s fid st err =
      { markTerminal s fid st err with stage := TransferStage.completed } := by
  simp [finishWorker, hall]

theorem finishWorker_eq_neg (s : TransferProgress) (fid : String) (st : FileStatus)
    (err : Option String)
    (hall : allTerminalB (markTerminal s fid st err).files = false) :
    finishWorker s fid st err = markTerminal s fid st err := by
  simp [finishWorker, hall]

theorem uUpdate_status_cases (b : Nat) (st : Option FileStatus) (f : FileProgress)
    (hst : st = none ∨ st = some FileStatus.transferring) :
    (uUpdate b st f).status = f.status ∨
      (uUpdate b st f).status = FileStatus.transferring := by
  unfold uUpdate
  split
  · exact Or.inl rfl
  · rcases hst with rfl | rfl
    · exact Or.inl rfl
    · exact Or.inr rfl

theorem uTerminal_status_cases (st : FileStatus) (err : Option String)
    (f : FileProgress) :
    (uTerminal st err f).status = f.status ∨ (uTerminal st err f).status = st := by
  unfold uTerminal
  split
  · exact Or.inl rfl
  · exact Or.inr rfl

theorem not_terminal_status_cases (st : FileStatus)
    (h : isTerminalStatus st = false) :
    st = FileStatus.pending ∨ st = FileStatus.transferring := by
  cases st <;> simp_all [isTerminalStatus]

theorem terminal_not_skipped_cases (st : FileStatus)
    (ht : isTerminalStatus st = true) (hs : st ≠ FileStatus.skipped) :
    st = FileStatus.completed ∨ st = FileStatus.failed := by
  cases st <;> simp_all [isTerminalStatus]

theorem initSession_ok_inv (ty : TransferType) (t0 : Nat) (tid : String)
    (ds : List FileDescriptor) (s : TransferProgress)
    (h : initSession ty t0 tid ds = Except.ok s) :
    ds ≠ [] ∧ s.stage = TransferStage.initializing ∧
    s.totalFiles = ds.length ∧ s.completedFiles = 0 ∧ s.failedFiles = 0 ∧
    s.files = ds.map initEntry := by
  unfold initSession at h
  split at h
  · exact absurd h (by simp)
  split at h
  · exact absurd h (by simp)
  next hne _ =>
    have hds : ds ≠ [] := by simpa using hne
    obtain rfl : _ = s := by injection h
    exact ⟨hds, rfl, rfl, rfl, rfl, rfl⟩

theorem reachable_inv (s : TransferProgress) (h : ReachableSession s) :
    SessionInv s := by
  induction h with
  | created ty t0 tid ds s hok =>
    obtain ⟨hds, hstage, htot, hc, hf, hfiles⟩ := initSession_ok_inv ty t0 tid ds s hok
    constructor
    · rw [htot, hfiles, List.length_map]
    · rw [hc, hfiles]
      symm
      rw [List.countP_eq_zero]
      intro f hf'
      obtain ⟨d, _, rfl⟩ := List.mem_map.mp hf'
      simp [initEntry]
    · rw [hf, hfiles]
      symm
      rw [List.countP_eq_zero]
      intro f hf'
      obtain ⟨d, _, rfl⟩ := List.mem_map.mp hf'
      simp [initEntry]
    · rw [hstage]; simp
    · intro f hf'
      rw [hfiles] at hf'
      obtain ⟨d, _, rfl⟩ := List.mem_map.mp hf'
      simp [initEntry]
    · intro _
      obtain ⟨d, ds', rfl⟩ := List.exists_cons_of_ne_nil hds
      refine ⟨initEntry d, ?_, by simp [initEntry], by simp [initEntry]⟩
      rw [hfiles]
      exact List.mem_map_of_mem _ (List.mem_cons_self d ds')
    · intro hcomp
      rw [hstage] at hcomp
      simp at hcomp
    · intro hfail
      rw [hstage] at hfail
      simp at hfail
  | preflightFailed ty t0 tid err =>
    constructor <;> simp [failedSession]
  | step s s' hs hstep ih =>
    cases hstep with
    | toConnecting hstage =>
      refine ⟨ih.total_eq, ih.completed_eq, ih.failed_eq, by simp, ih.no_skipped,
        ?_, ?_, ?_⟩
      · intro _
        exact ih.active_open (Or.inl hstage)
      · intro hc; simp at hc
      · intro hc; simp at hc
    | toTransferring hstage =>
      refine ⟨ih.total_eq, ih.completed_eq, ih.failed_eq, by simp, ih.no_skipped,
        ?_, ?_, ?_⟩
      · intro _
        exact ih.active_open (Or.inr (Or.inl hstage))
      · intro hc; simp at hc
      · intro hc; simp at hc
    | toFinalizing hstage =>
      refine ⟨ih.total_eq, ih.completed_eq, ih.failed_eq, by simp, ih.no_skipped,
        ?_, ?_, ?_⟩
      · intro _
        exact ih.active_open (Or.inr (Or.inr (Or.inl hstage)))
      · intro hc; simp at hc
      · intro hc; simp at hc
    | workerUpdate fid bytes st hstage hst =>
      refine ⟨?_, (updateFile_counts s fid bytes st).1,
        (updateFile_counts s fid bytes st).2, ?_, ?_, ?_, ?_, ?_⟩
      · rw [updateFile_totalFiles, updateFile_files, applyToEntry_length]
        exact ih.total_eq
      · rw [updateFile_stage]
        rcases hstage with h | h <;> rw [h] <;> simp
      · intro f' hf'
        simp only [updateFile_files, applyToEntry, List.mem_map] at hf'
        obtain ⟨f, hfmem, rfl⟩ := hf'
        split
        · rcases uUpdate_status_cases bytes st f hst with h | h <;> rw [h]
          · exact ih.no_skipped f hfmem
          · simp
        · exact ih.no_skipped f hfmem
      · intro hact
        rw [updateFile_stage] at hact
        obtain ⟨f, hfmem, hfc, hff⟩ := ih.active_open hact
        refine ⟨if f.fileId == fid then uUpdate bytes st f else f, ?_, ?_⟩
        · simp only [updateFile_files, applyToEntry, List.mem_map]
          exact ⟨f, hfmem, rfl⟩
        · split
          · rcases uUpdate_status_cases bytes st f hst with h | h <;> rw [h]
            · exact ⟨hfc, hff⟩
            · simp
          · exact ⟨hfc, hff⟩
      · intro hc
        rw [updateFile_stage] at hc
        rcases hstage with h | h <;> rw [h] at hc <;> simp at hc
      · intro hfail
        rw [updateFile_stage] at hfail
        rcases hstage with h | h <;> rw [h] at hfail <;> simp at hfail
    | workerFinish fid st err hstage hst =>
      have hns : ∀ f' ∈ (markTerminal s fid st err).files,
          f'.status ≠ FileStatus.skipped := by
        intro f' hf'
        simp only [markTerminal_files, applyToEntry, List.mem_map] at hf'
        obtain ⟨f, hfmem, rfl⟩ := hf'
        split
        · rcases uTerminal_status_cases st err f with h | h <;> rw [h]
          · exact ih.no_skipped f hfmem
          · rcases hst with rfl | rfl <;> simp
        · exact ih.no_skipped f hfmem
      have htot : (markTerminal s fid st err).totalFiles =
          (markTerminal s fid st err).files.length := by
        rw [markTerminal_totalFiles, markTerminal_files, applyToEntry_length]
        exact ih.total_eq
      by_cases hall : allTerminalB (markTerminal s fid st err).files = true
      · rw [finishWorker_eq_pos s fid st err hall]
        refine ⟨htot, (markTerminal_counts s fid st err).1,
          (markTerminal_counts s fid st err).2, by simp, hns, ?_, ?_, ?_⟩
        · intro hact
          rcases hact with h | h | h | h <;> simp at h
        · intro _ f' hf'
          have hterm := (List.all_eq_true.mp hall) f' hf'
          exact terminal_not_skipped_cases _ hterm (hns f' hf')
        · intro hfail; simp at hfail
      · rw [finishWorker_eq_neg s fid st err (by simpa using hall)]
        refine ⟨htot, (markTerminal_counts s fid st err).1,
          (markTerminal_counts s fid st err).2, ?_, hns, ?_, ?_, ?_⟩
        · rw [markTerminal_stage]
          rcases hstage with h | h <;> rw [h] <;> simp
        · intro _
          have hex : ∃ f' ∈ (markTerminal s fid st err).files,
              isTerminalStatus f'.status = false := by
            by_contra hcon
            push_neg at hcon
            apply hall
            rw [allTerminalB, List.all_eq_true]
            intro f' hf'
            have := hcon f' hf'
            simpa using this
          obtain ⟨f', hf', hnt⟩ := hex
          refine ⟨f', hf', ?_⟩
          rcases not_terminal_status_cases _ hnt with h | h <;> rw [h] <;> simp
        · intro hc
          rw [markTerminal_stage] at hc
          rcases hstage with h | h <;> rw [h] at hc <;> simp at hc
        · intro hfail
          rw [markTerminal_stage] at hfail
          rcases hstage with h | h <;> rw [h] at hfail <;> simp at hfail

/-- C2: for every reachable session state,
`completedFiles + failedFiles ≤ totalFiles`, and equality holds exactly
when the session's stage is terminal (`Completed` or `Failed`). -/
theorem session_counter_invariant (s : TransferProgress)
    (h : ReachableSession s) :
    s.completedFiles + s.failedFiles ≤ s.totalFiles ∧
    (s.completedFiles + s.failedFiles = s.totalFiles ↔
      (s.stage = TransferStage.completed ∨ s.stage = TransferStage.failed)) := by
  have inv := reachable_inv s h
  have hdisj : ∀ f ∈ s.files,
      ¬((f.status == FileStatus.completed) = true ∧
        (f.status == FileStatus.failed) = true) := by
    rintro f _ ⟨h1, h2⟩
    rw [beq_iff_eq] at h1 h2
    rw [h1] at h2
    simp at h2
  constructor
  · rw [inv.completed_eq, inv.failed_eq, inv.total_eq]
    exact countP_add_countP_le_length s.files _ _ hdisj
  · rw [inv.completed_eq, inv.failed_eq, inv.total_eq,
      countP_add_countP_eq_length_iff s.files _ _ hdisj]
    constructor
    · intro hall
      cases hst : s.stage with
      | initializing =>
        obtain ⟨f, hf, hfc, hff⟩ := inv.active_open (Or.inl hst)
        rcases hall f hf with h1 | h1 <;> rw [beq_iff_eq] at h1
        · exact absurd h1 hfc
        · exact absurd h1 hff
      | connecting =>
        obtain ⟨f, hf, hfc, hff⟩ := inv.active_open (Or.inr (Or.inl hst))
        rcases hall f hf with h1 | h1 <;> rw [beq_iff_eq] at h1
        · exact absurd h1 hfc
        · exact absurd h1 hff
      | transferring =>
        obtain ⟨f, hf, hfc, hff⟩ := inv.active_open (Or.inr (Or.inr (Or.inl hst)))
        rcases hall f hf with h1 | h1 <;> rw [beq_iff_eq] at h1
        · exact absurd h1 hfc
        · exact absurd h1 hff
      | finalizing =>
        obtain ⟨f, hf, hfc, hff⟩ :=
          inv.active_open (Or.inr (Or.inr (Or.inr hst)))
        rcases hall f hf with h1 | h1 <;> rw [beq_iff_eq] at h1
        · exact absurd h1 hfc
        · exact absurd h1 hff
      | completed => exact Or.inl rfl
      | failed => exact Or.inr rfl
      | cancelled => exact absurd hst inv.not_cancelled
    · intro hterm
      rcases hterm with hc | hf
      · intro f hfmem
        rcases inv.completed_closed hc f hfmem with h1 | h1
        · left; rw [beq_iff_eq]; exact h1
        · right; rw [beq_iff_eq]; exact h1
      · intro f hfmem
        rw [inv.failed_pre hf] at hfmem
        simp at hfmem

/-- Witness for C2 at a concrete reachable session: a pre-flight failed
download session. -/
theorem session_counter_invariant_witness :
    (failedSession TransferType.download 0 "tid" "bad ticket").completedFiles +
        (failedSession TransferType.download 0 "tid" "bad ticket").failedFiles ≤
      (failedSession TransferType.download 0 "tid" "bad ticket").totalFiles ∧
    ((failedSession TransferType.download 0 "tid" "bad ticket").completedFiles +
        (failedSession TransferType.download 0 "tid" "bad ticket").failedFiles =
      (failedSession TransferType.download 0 "tid" "bad ticket").totalFiles ↔
      ((failedSession TransferType.download 0 "tid" "bad ticket").stage =
          TransferStage.completed ∨
       (failedSession TransferType.download 0 "tid" "bad ticket").stage =
          TransferStage.failed)) :=
  session_counter_invariant _ (ReachableSession.preflightFailed _ _ _ _)

/-- C6: every reachable session's stage is one of the six state-machine
values Initializing / Connecting / Transferring / Finalizing / Completed
/ Failed; the reserved `cancelled` value never occurs. -/
theorem session_stage_six_values (s : TransferProgress)
    (h : ReachableSession s) :
    (s.stage = TransferStage.initializing ∨ s.stage = TransferStage.connecting ∨
     s.stage = TransferStage.transferring ∨ s.stage = TransferStage.finalizing ∨
     s.stage = TransferStage.completed ∨ s.stage = TransferStage.failed) ∧
    s.stage ≠ TransferStage.cancelled := by
  have inv := reachable_inv s h
  refine ⟨?_, inv.not_cancelled⟩
  cases hst : s.stage with
  | cancelled => exact absurd hst inv.not_cancelled
  | initializing => simp
  | connecting => simp
  | transferring => simp
  | finalizing => simp
  | completed => simp
  | failed => simp

/-- Witness for C6 at a concrete reachable session. -/
theorem session_stage_six_values_witness :
    ((failedSession TransferType.upload 0 "tid" "no such path").stage =
        TransferStage.initializing ∨
     (failedSession TransferType.upload 0 "tid" "no such path").stage =
        TransferStage.connecting ∨
     (failedSession TransferType.upload 0 "tid" "no such path").stage =
        TransferStage.transferring ∨
     (failedSession TransferType.upload 0 "tid" "no such path").stage =
        TransferStage.finalizing ∨
     (failedSession TransferType.upload 0 "tid" "no such path").stage =
        TransferStage.completed ∨
     (failedSession TransferType.upload 0 "tid" "no such path").stage =
        TransferStage.failed) ∧
    (failedSession TransferType.upload 0 "tid" "no such path").stage ≠
      TransferStage.cancelled :=
  session_stage_six_values _ (ReachableSession.preflightFailed _ _ _ _)

theorem fids_updateFile (s : TransferProgress) (fid : String) (b : Nat)
    (st : Option FileStatus) :
    (updateFile s fid b st).files.map (fun f => f.fileId) =
      s.files.map (fun f => f.fileId) := by
  rw [updateFile_files]
  exact applyToEntry_map_fileId s.files fid _ (uUpdate_fileId b st)

theorem fids_markTerminal (s : TransferProgress) (fid : String) (st : FileStatus)
    (err : Option String) :
    (markTerminal s fid st err).files.map (fun f => f.fileId) =
      s.files.map (fun f => f.fileId) := by
  rw [markTerminal_files]
  exact applyToEntry_map_fileId s.files fid _ (uTerminal_fileId st err)

theorem fids_finishWorker (s : TransferProgress) (fid : String) (st : FileStatus)
    (err : Option String) :
    (finishWorker s fid st err).files.map (fun f => f.fileId) =
      s.files.map (fun f => f.fileId) := by
  rw [show (finishWorker s fid st err).files.map (fun f => f.fileId) =
      (markTerminal s fid st err).files.map (fun f => f.fileId) by
    rw [finishWorker_files]]
  exact fids_markTerminal s fid st err

theorem fids_foldUpdates (bs : List Nat) (s : TransferProgress) (fid : String) :
    ((bs.foldl (fun acc b => updateFile acc fid b none) s).files.map
      (fun f => f.fileId)) = s.files.map (fun f => f.fileId) := by
  induction bs generalizing s with
  | nil => rfl
  | cons b bs ih => rw [List.foldl_cons, ih, fids_updateFile]

theorem fids_runWorker (s : TransferProgress) (fid : String) (w : WorkerScript) :
    (runWorker s fid w).files.map (fun f => f.fileId) =
      s.files.map (fun f => f.fileId) := by
  rcases h : w.outcome with _ | err <;>
    simp only [runWorker, h] <;>
    rw [fids_finishWorker, fids_foldUpdates, fids_updateFile]

theorem fids_runAll (s : TransferProgress) (ws : List (String × WorkerScript)) :
    (runAll s ws).files.map (fun f => f.fileId) =
      s.files.map (fun f => f.fileId) := by
  induction ws generalizing s with
  | nil => rfl
  | cons p ws ih =>
    show (runAll (runWorker s p.1 p.2) ws).files.map _ = _
    rw [ih, fids_runWorker]

theorem totalFiles_finishWorker (s : TransferProgress) (fid : String)
    (st : FileStatus) (err : Option String) :
    (finishWorker s fid st err).totalFiles = s.totalFiles := by
  by_cases hall : allTerminalB (markTerminal s fid st err).files = true
  · rw [finishWorker_eq_pos s fid st err hall]
    exact markTerminal_totalFiles s fid st err
  · rw [finishWorker_eq_neg s fid st err (by simpa using hall)]
    exact markTerminal_totalFiles s fid st err

theorem totalFiles_foldUpdates (bs : List Nat) (s : TransferProgress)
    (fid : String) :
    (bs.foldl (fun acc b => updateFile acc fid b none) s).totalFiles =
      s.totalFiles := by
  induction bs generalizing s with
  | nil => rfl
  | cons b bs ih => rw [List.foldl_cons, ih, updateFile_totalFiles]

theorem totalFiles_runWorker (s : TransferProgress) (fid : String)
    (w : WorkerScript) : (runWorker s fid w).totalFiles = s.totalFiles := by
  rcases h : w.outcome with _ | err <;>
    simp only [runWorker, h] <;>
    rw [totalFiles_finishWorker, totalFiles_foldUpdates, updateFile_totalFiles]

theorem totalFiles_runAll (s : TransferProgress)
    (ws : List (String × WorkerScript)) :
    (runAll s ws).totalFiles = s.totalFiles := by
  induction ws generalizing s with
  | nil => rfl
  | cons p ws ih =>
    show (runAll (runWorker s p.1 p.2) ws).totalFiles = _
    rw [ih, totalFiles_runWorker]

theorem counts_finishWorker (s : TransferProgress) (fid : String)
    (st : FileStatus) (err : Option String) :
    (finishWorker s fid st err).completedFiles =
      (finishWorker s fid st err).files.countP
        (fun f => f.status == FileStatus.completed) ∧
    (finishWorker s fid st err).failedFiles =
      (finishWorker s fid st err).files.countP
        (fun f => f.status == FileStatus.failed) := by
  by_cases hall : allTerminalB (markTerminal s fid st err).files = true
  · rw [finishWorker_eq_pos s fid st err hall]
    exact markTerminal_counts s fid st err
  · rw [finishWorker_eq_neg s fid st err (by simpa using hall)]
    exact markTerminal_counts s fid st err

theorem counts_runWorker (s : TransferProgress) (fid : String)
    (w : WorkerScript) :
    (runWorker s fid w).completedFiles =
      (runWorker s fid w).files.countP (fun f => f.status == FileStatus.completed) ∧
    (runWorker s fid w).failedFiles =
      (runWorker s fid w).files.countP (fun f => f.status == FileStatus.failed) := by
  rcases h : w.outcome with _ | err <;>
    simp only [runWorker, h] <;>
    exact counts_finishWorker _ _ _ _

theorem counts_runAll (s : TransferProgress) (ws : List (String × WorkerScript))
    (hne : ws ≠ []) :
    (runAll s ws).completedFiles =
      (runAll s ws).files.countP (fun f => f.status == FileStatus.completed) ∧
    (runAll s ws).failedFiles =
      (runAll s ws).files.countP (fun f => f.status == FileStatus.failed) := by
  induction ws generalizing s with
  | nil => cases hne rfl
  | cons p ws ih =>
    cases ws with
    | nil => exact counts_runWorker s p.1 p.2
    | cons q ws2 => exact ih (runWorker s p.1 p.2) (by simp)

theorem runWorker_stage_of_allTerminal (s : TransferProgress) (fid : String)
    (w : WorkerScript)
    (ht : allTerminalB (runWorker s fid w).files = true) :
    (runWorker s fid w).stage = TransferStage.completed := by
  rcases h : w.outcome with _ | err <;> simp only [runWorker, h] at ht ⊢ <;>
    rw [finishWorker_files] at ht <;>
    rw [finishWorker_eq_pos _ _ _ _ ht]

theorem runAll_stage_of_allTerminal (s : TransferProgress)
    (ws : List (String × WorkerScript)) (hne : ws ≠ [])
    (ht : allTerminalB (runAll s ws).files = true) :
    (runAll s ws).stage = TransferStage.completed := by
  induction ws generalizing s with
  | nil => cases hne rfl
  | cons p ws ih =>
    cases ws with
    | nil => exact runWorker_stage_of_allTerminal s p.1 p.2 ht
    | cons q ws2 => exact ih (runWorker s p.1 p.2) (by simp) ht

theorem nodup_key_unique {α β : Type} (l : List (α × β))
    (h : (l.map Prod.fst).Nodup) (p q : α × β) (hp : p ∈ l) (hq : q ∈ l)
    (hpq : p.1 = q.1) : p = q := by
  induction l with
  | nil => simp at hp
  | cons a l ih =>
    simp only [List.map_cons, List.nodup_cons] at h
    rcases List.mem_cons.mp hp with rfl | hp' <;>
      rcases List.mem_cons.mp hq with rfl | hq'
    · rfl
    · exact absurd (hpq ▸ List.mem_map_of_mem Prod.fst hq') h.1
    · exact absurd (hpq ▸ List.mem_map_of_mem Prod.fst hp') h.1
    · exact ih h.2 hp' hq'

theorem workerEntry_fileId (w : WorkerScript) (e : FileProgress) :
    (workerEntry w e).fileId = e.fileId := rfl

theorem runAll_own_entry (s0 : TransferProgress)
    (ws : List (String × WorkerScript)) (hnd : (ws.map Prod.fst).Nodup)
    (p : String × WorkerScript) (hp : p ∈ ws) (e0 : FileProgress)
    (he0 : findFile s0 p.1 = some e0)
    (hnt : isTerminalStatus e0.status = false) :
    findFile (runAll s0 ws) p.1 = some (workerEntry p.2 e0) := by
  obtain ⟨l1, l2, rfl⟩ := List.append_of_mem hp
  have hmapsplit : ((l1 ++ p :: l2).map Prod.fst) =
      l1.map Prod.fst ++ p.1 :: l2.map Prod.fst := by simp
  rw [hmapsplit] at hnd
  obtain ⟨hA, hB, hdisj⟩ := List.nodup_append.mp hnd
  have h1 : p.1 ∉ l1.map Prod.fst := fun hmem1 =>
    hdisj hmem1 (List.mem_cons_self _ _)
  have h2 : p.1 ∉ l2.map Prod.fst := (List.nodup_cons.mp hB).1
  have key : runAll s0 (l1 ++ p :: l2) =
      runAll (runWorker (runAll s0 l1) p.1 p.2) l2 := by
    simp only [runAll, List.foldl_append, List.foldl_cons]
  rw [key, findFile_runAll_ne _ l2 p.1 h2]
  have hfr1 : findFile (runAll s0 l1) p.1 = some e0 := by
    rw [findFile_runAll_ne s0 l1 p.1 h1]
    exact he0
  exact findFile_runWorker_self _ _ _ _ hfr1 hnt

/-- C1: failure isolation — after workers have been spawned over an
initialized session, if exactly one file's transport stream errors then
that FileEntry alone is marked `failed` with the captured error,
`failedFiles` is 1, every sibling worker still runs to completion with
its own entry determined solely by its own stream (`completedFiles` is
`totalFiles - 1`), and the session still reaches the `Completed` stage. -/
theorem failure_isolation (ty : TransferType) (t0 : Nat) (tid : String)
    (ds : List FileDescriptor) (s0 : TransferProgress)
    (ws : List (String × WorkerScript)) (fkey : String) (wf : WorkerScript)
    (errMsg : String)
    (hinit : initSession ty t0 tid ds = Except.ok s0)
    (hcov : s0.files.map (fun f => f.fileId) = ws.map Prod.fst)
    (hnd : (ws.map Prod.fst).Nodup)
    (hmem : (fkey, wf) ∈ ws)
    (herr : wf.outcome = some errMsg)
    (hothers : ∀ p ∈ ws, p.1 ≠ fkey → p.2.outcome = none) :
    (∃ e, findFile (runAll s0 ws) fkey = some e ∧
      e.status = FileStatus.failed ∧ e.error = some errMsg) ∧
    (runAll s0 ws).failedFiles = 1 ∧
    (runAll s0 ws).completedFiles + 1 = (runAll s0 ws).totalFiles ∧
    (∀ p ∈ ws, p.1 ≠ fkey → ∃ e, findFile (runAll s0 ws) p.1 = some e ∧
      e.status = FileStatus.completed ∧ e.error = none ∧
      e.transferredBytes = p.2.updates.foldl (fun a b => max a b) 0) ∧
    (runAll s0 ws).stage = TransferStage.completed := by
  obtain ⟨hds, hstage0, htot, hcomp0, hfail0, hfiles⟩ :=
    initSession_ok_inv ty t0 tid ds s0 hinit
  have hwsne : ws ≠ [] := by
    rintro rfl
    simp at hmem
  have hinit_entry : ∀ g ∈ ws.map Prod.fst, ∃ e0, findFile s0 g = some e0 ∧
      e0.fileId = g ∧ e0.status = FileStatus.pending ∧
      e0.transferredBytes = 0 := by
    intro g hg
    rw [← hcov] at hg
    obtain ⟨f, hf, hfid⟩ := List.mem_map.mp hg
    have hsome : (s0.files.find? (fun x => x.fileId == g)).isSome := by
      rw [List.find?_isSome]
      exact ⟨f, hf, by simp [hfid]⟩
    obtain ⟨e0, he0⟩ := Option.isSome_iff_exists.mp hsome
    have hpred := List.find?_some he0
    rw [beq_iff_eq] at hpred
    have hmem0 : e0 ∈ s0.files := List.mem_of_find?_eq_some he0
    rw [hfiles] at hmem0
    obtain ⟨d, _, rfl⟩ := List.mem_map.mp hmem0
    exact ⟨initEntry d, he0, hpred, rfl, rfl⟩
  have hown : ∀ p ∈ ws, ∃ e0, findFile s0 p.1 = some e0 ∧ e0.fileId = p.1 ∧
      e0.status = FileStatus.pending ∧ e0.transferredBytes = 0 ∧
      findFile (runAll s0 ws) p.1 = some (workerEntry p.2 e0) := by
    intro p hp
    obtain ⟨e0, he0, hid0, hst0, hb0⟩ :=
      hinit_entry p.1 (List.mem_map_of_mem Prod.fst hp)
    refine ⟨e0, he0, hid0, hst0, hb0, ?_⟩
    exact runAll_own_entry s0 ws hnd p hp e0 he0 (by rw [hst0]; rfl)
  have hfinal_fids : (runAll s0 ws).files.map (fun f => f.fileId) =
      ws.map Prod.fst := by
    rw [fids_runAll, hcov]
  have hfinal_nodup : ((runAll s0 ws).files.map (fun f => f.fileId)).Nodup := by
    rw [hfinal_fids]
    exact hnd
  have hchar : ∀ e ∈ (runAll s0 ws).files,
      (e.status = FileStatus.failed ↔ e.fileId = fkey) ∧
      (e.status = FileStatus.completed ∨ e.status = FileStatus.failed) := by
    intro e he
    have hefid : e.fileId ∈ ws.map Prod.fst := by
      rw [← hfinal_fids]
      exact List.mem_map_of_mem _ he
    obtain ⟨p, hp, hpfid⟩ := List.mem_map.mp hefid
    obtain ⟨e0, he0, hid0, hst0, hb0, hfind⟩ := hown p hp
    have heq : e = workerEntry p.2 e0 := by
      have h1 : findFile (runAll s0 ws) e.fileId = some e := by
        have h0 := find_eq_self_of_nodup_ids (fun f => f.fileId)
          (runAll s0 ws).files hfinal_nodup e he
        exact h0
      rw [← hpfid, hfind] at h1
      injection h1 with h1
      exact h1.symm
    subst heq
    by_cases hkey : p.1 = fkey
    · have hpwf : p = (fkey, wf) :=
        nodup_key_unique ws hnd p (fkey, wf) hp hmem (by simpa using hkey)
      subst hpwf
      refine ⟨?_, ?_⟩
      · constructor
        · intro _
          rw [workerEntry_fileId, hid0]
        · intro _
          simp [workerEntry, herr]
      · right
        simp [workerEntry, herr]
    · have houtp : p.2.outcome = none := hothers p hp hkey
      refine ⟨?_, ?_⟩
      · constructor
        · intro hfs
          exfalso
          rw [workerEntry] at hfs
          simp [houtp] at hfs
        · intro hid
          exfalso
          rw [workerEntry_fileId, hid0] at hid
          exact hkey hid
      · left
        simp [workerEntry, houtp]
  have hdisj : ∀ e ∈ (runAll s0 ws).files,
      ¬((e.status == FileStatus.completed) = true ∧
        (e.status == FileStatus.failed) = true) := by
    rintro e _ ⟨h1, h2⟩
    rw [beq_iff_eq] at h1 h2
    rw [h1] at h2
    simp at h2
  have hcover : ∀ e ∈ (runAll s0 ws).files,
      ((e.status == FileStatus.completed) = true ∨
       (e.status == FileStatus.failed) = true) := by
    intro e he
    rcases (hchar e he).2 with h | h
    · left; rw [beq_iff_eq]; exact h
    · right; rw [beq_iff_eq]; exact h
  have hlen : (runAll s0 ws).files.length = s0.files.length := by
    have := congrArg List.length hfinal_fids
    rw [List.length_map] at this
    have h2 := congrArg List.length hcov
    rw [List.length_map] at h2
    rw [this, ← h2]
  have hfailcount : (runAll s0 ws).files.countP
      (fun f => f.status == FileStatus.failed) = 1 := by
    have hcongr : (runAll s0 ws).files.countP
        (fun f => f.status == FileStatus.failed) =
        (runAll s0 ws).files.countP (fun f => f.fileId == fkey) := by
      apply countP_congr_of_mem
      intro e he
      by_cases hk : e.fileId = fkey
      · have hfs : e.status = FileStatus.failed := (hchar e he).1.mpr hk
        rw [beq_iff_eq.mpr hfs, beq_iff_eq.mpr hk]
      · have hfs : e.status ≠ FileStatus.failed :=
          fun hs => hk ((hchar e he).1.mp hs)
        rw [beq_eq_false_iff_ne.mpr hfs, beq_eq_false_iff_ne.mpr hk]
    rw [hcongr]
    have hmapcount : (runAll s0 ws).files.countP (fun f => f.fileId == fkey) =
        ((runAll s0 ws).files.map (fun f => f.fileId)).countP
          (fun x => x == fkey) := by
      rw [List.countP_map]
      rfl
    rw [hmapcount, hfinal_fids, ← List.count_eq_countP]
    exact List.count_eq_one_of_mem hnd (List.mem_map_of_mem Prod.fst hmem)
  have hsum : (runAll s0 ws).files.countP
      (fun f => f.status == FileStatus.completed) +
      (runAll s0 ws).files.countP (fun f => f.status == FileStatus.failed) =
      (runAll s0 ws).files.length :=
    (countP_add_countP_eq_length_iff _ _ _ hdisj).mpr hcover
  have hcounts := counts_runAll s0 ws hwsne
  refine ⟨?_, ?_, ?_, ?_, ?_⟩
  · obtain ⟨e0, he0, hid0, hst0, hb0, hfind⟩ := hown (fkey, wf) hmem
    refine ⟨workerEntry wf e0, hfind, ?_, ?_⟩
    · simp [workerEntry, herr]
    · simp [workerEntry, herr]
  · rw [hcounts.2, hfailcount]
  · rw [hcounts.1, totalFiles_runAll, htot]
    have hdslen : s0.files.length = ds.length := by
      rw [hfiles, List.length_map]
    rw [hfailcount] at hsum
    rw [hlen, hdslen] at hsum
    omega
  · intro p hp hpk
    obtain ⟨e0, he0, hid0, hst0, hb0, hfind⟩ := hown p hp
    have houtp : p.2.outcome = none := hothers p hp hpk
    refine ⟨workerEntry p.2 e0, hfind, ?_, ?_, ?_⟩
    · simp [workerEntry, houtp]
    · simp [workerEntry, houtp]
    · simp [workerEntry, hb0]
  · apply runAll_stage_of_allTerminal s0 ws hwsne
    rw [allTerminalB, List.all_eq_true]
    intro e he
    rcases (hchar e he).2 with h | h <;> rw [h] <;> rfl

/-- Witness for C1 at the concrete Scenario B input. -/
theorem failure_isolation_witness :
    (initSession TransferType.upload 0 "tid" scenarioDescriptors =
      Except.ok scenarioSession) ∧
    (("f2",
      ({ updates := [1048576],
         outcome := some "TransportError: stream severed mid-transfer" } :
        WorkerScript)) ∈ scenarioScripts) ∧
    (runAll scenarioSession scenarioScripts).failedFiles = 1 ∧
    (runAll scenarioSession scenarioScripts).completedFiles + 1 =
      (runAll scenarioSession scenarioScripts).totalFiles ∧
    (runAll scenarioSession scenarioScripts).stage = TransferStage.completed := by
  have h := failure_isolation TransferType.upload 0 "tid" scenarioDescriptors
    scenarioSession scenarioScripts "f2"
    { updates := [1048576],
      outcome := some "TransportError: stream severed mid-transfer" }
    "TransportError: stream severed mid-transfer"
    (by rfl) (by rfl) (by decide) (by decide) (by rfl) (by decide)
  exact ⟨by rfl, by decide, h.2.1, h.2.2.1, h.2.2.2.2⟩
